import Mathlib

/-
Verification of the Dead Simple Split Flap Display driver
(src/dead_simple_split_flap_display.ino).

The sketch is shallowly embedded below.  C `char` values are modelled as
signed 8-bit integers (range [-128, 127]) carried in `Int`; `long int`
step counters are `Int` (no overflow is reachable, every value stays far
inside 32 bits); C `/` and `%` on signed operands truncate toward zero,
so they are modelled by `Int.tdiv` and `Int.tmod`.  The packed rotor
bytes are modelled as `Nat` values below 256, two excitation nibbles per
byte exactly as the array `char rotors[NUM_UNITS/2]` stores them.
`move_rotors` (the per-tick entry point), `step_fwd` (one phase advance)
and `rotors_out` (the output stage) follow the source line by line; the
`for` loops become left folds over the unit indices.
-/

set_option maxRecDepth 8000

/-- Constant of line 42: `#define INITIAL_ACCEL 15`. -/
def INITIAL_ACCEL : Int := 15

/-- Constant of line 43: `#define BRAKE_STEPS 50`. -/
def BRAKE_STEPS : Int := 50

/-- Constant of line 44: `#define GEAR_RATIO 64`. -/
def GEAR_RATIO : Int := 64

/-- Constant of line 45: `#define NUM_FLAPS 32`. -/
def NUM_FLAPS : Int := 32

/-- Constant of line 46: `#define NUM_UNITS 10`. -/
def NUM_UNITS : Nat := 10

/-- Truncation of an `int` expression when stored into a signed 8-bit
`char`, as the AVR target does (wrap modulo 256 into [-128, 127]). -/
def toSChar (x : Int) : Int := (x + 128) % 256 - 128

/-- Lines 187-190: the character-to-flap-index conversion performed for
each message byte.  A 0 terminator or an explicit `' '` (32) selects the
space flap `NUM_FLAPS - 1`; any other byte `c` yields `c - 'A'`, stored
into the `char` variable `chr`. -/
def computeTarget (c : Int) : Int :=
  if c = 0 ∨ c = 32 then NUM_FLAPS - 1 else toSChar (c - 65)

/-- Line 191: `((chr - last_display[r] + NUM_FLAPS) % NUM_FLAPS) * GEAR_RATIO`
with C truncated `%`. -/
def computeStepPlan (current target : Int) : Int :=
  Int.tmod (target - current + NUM_FLAPS) NUM_FLAPS * GEAR_RATIO

/-- Line 192: `steps = steps * 319 / 320` with C truncated division. -/
def applyCompensation (n : Int) : Int := Int.tdiv (n * 319) 320

/-- Read of `message[p]`; the driver never reads past the buffer, the
out-of-range branch is dead. -/
def msgGet (m : Fin 11 → Int) (p : Nat) : Int :=
  if h : p < 11 then m ⟨p, h⟩ else 0

/-- Write of `message[p] = v`; the driver never writes past the buffer. -/
def msgSet (m : Fin 11 → Int) (p : Nat) (v : Int) : Fin 11 → Int :=
  if h : p < 11 then Function.update m ⟨p, h⟩ v else m

/-- Scan for the first terminator byte at or after position `k`,
looking at most `fuel` positions ahead. -/
def msgLenFrom (m : Fin 11 → Int) : Nat → Nat → Nat
  | k, 0 => k
  | k, fuel + 1 => if msgGet m k = 0 then k else msgLenFrom m (k + 1) fuel

/-- Number of leading non-terminator bytes the load loop will consume:
the index of the first 0 among `message[0..9]`, or 10 when none occurs
within the first `NUM_UNITS` bytes. -/
def msgLen (m : Fin 11 → Int) : Nat := msgLenFrom m 0 10

/-- High excitation nibble of a packed rotor byte (units with even index). -/
def hiNib (b : Nat) : Nat := b / 16 % 16

/-- Low excitation nibble of a packed rotor byte (units with odd index). -/
def loNib (b : Nat) : Nat := b % 16

/-- Lines 132-135 of `step_fwd`, on the extracted 4-bit nibble: if bit 3
is set (`rotor & 0x08`, i.e. `8 ≤ n` for a nibble) restart at 1,
otherwise shift left one bit. -/
def stepNib (n : Nat) : Nat := if 8 ≤ n then 1 else n * 2

/-- A nibble holding exactly one set bit: the well-formed excitation
patterns. -/
def oneHot (n : Nat) : Prop := n = 1 ∨ n = 2 ∨ n = 4 ∨ n = 8

/-- Index into `rotors[]` for a unit: `rotor_num / 2`. -/
def pairIdx (ff : Fin 10) : Fin 5 := ⟨ff.val / 2, by have h := ff.isLt; omega⟩

/-- Lines 124-141: one step forward for unit `rotor_num`, updating only
that unit's nibble of `rotors[rotor_num / 2]`. -/
def step_fwd (r : Fin 5 → Nat) (rotor_num : Fin 10) : Fin 5 → Nat :=
  let b := r (pairIdx rotor_num)
  if rotor_num.val % 2 = 0 then
    Function.update r (pairIdx rotor_num) (stepNib (hiNib b) * 16 + loNib b)
  else
    Function.update r (pairIdx rotor_num) (hiNib b * 16 + stepNib (loNib b))

/-- The excitation nibble of one unit inside the packed array: even
units live in the high nibble, odd units in the low nibble. -/
def unitNib (r : Fin 5 → Nat) (ff : Fin 10) : Nat :=
  if ff.val % 2 = 0 then hiNib (r (pairIdx ff)) else loNib (r (pairIdx ff))

/-- Whole-driver state: the global variables of the sketch. -/
structure DState where
  rotors : Fin 5 → Nat
  steps : Fin 10 → Int
  acc : Int
  acc_t : Int
  last_display : Fin 10 → Int
  message : Fin 11 → Int
  rolling : Bool

/-- State threaded through the stepping loop of `move_rotors`
(lines 152-160). -/
structure LoopSt where
  rotors : Fin 5 → Nat
  steps : Fin 10 → Int
  rolling : Bool

/-- Lines 153-159: body of the stepping loop for unit `ff`. -/
def loopBody (st : LoopSt) (ff : Fin 10) : LoopSt :=
  if st.steps ff > -BRAKE_STEPS then
    { rotors := if st.steps ff > 0 then step_fwd st.rotors ff else st.rotors
      steps := Function.update st.steps ff (st.steps ff - 1)
      rolling := true }
  else st

/-- The stepping loop over all `NUM_UNITS` units, in source order. -/
def stepLoop (st : LoopSt) : LoopSt := (List.finRange 10).foldl loopBody st

/-- State threaded through the message-load loop (lines 186-199):
`p` is the offset of the walking pointer `msg_p` inside `message[]`. -/
structure LoadSt where
  p : Nat
  steps : Fin 10 → Int
  last_display : Fin 10 → Int
  message : Fin 11 → Int

/-- Lines 187-198: body of the message-load loop for unit `rotor_num`.
In both branches `chr` is computed from `*msg_p` and the unit's step
count and settled flap are updated (lines 187-193); the byte is zeroed
and the pointer advanced only when it is not the terminator
(lines 195-198). -/
def loadBody (st : LoadSt) (rotor_num : Fin 10) : LoadSt :=
  if msgGet st.message st.p ≠ 0 then
    { p := st.p + 1,
      steps := Function.update st.steps rotor_num
        (applyCompensation (computeStepPlan (st.last_display rotor_num)
          (computeTarget (msgGet st.message st.p)))),
      last_display := Function.update st.last_display rotor_num
        (computeTarget (msgGet st.message st.p)),
      message := msgSet st.message st.p 0 }
  else
    { st with
      steps := Function.update st.steps rotor_num
        (applyCompensation (computeStepPlan (st.last_display rotor_num)
          (computeTarget (msgGet st.message st.p)))),
      last_display := Function.update st.last_display rotor_num
        (computeTarget (msgGet st.message st.p)) }

/-- Lines 185-199: the whole message-load loop, starting from the front
of `message[]`. -/
def loadRun (s : DState) : LoadSt :=
  (List.finRange 10).foldl loadBody
    { p := 0, steps := s.steps, last_display := s.last_display, message := s.message }

/-- Effect of the message-load loop on the driver state. -/
def loadMessage (s : DState) : DState :=
  { s with steps := (loadRun s).steps, last_display := (loadRun s).last_display,
           message := (loadRun s).message }

/-- Result of the stepping loop of lines 151-160 on the current state,
starting from `rolling = false` (line 150). -/
def stepRes (s : DState) : LoopSt :=
  stepLoop { rotors := s.rotors, steps := s.steps, rolling := false }

/-- Lines 145-201, `move_rotors`: one tick.  `rotors_out` (line 163) only
writes output pins and is modelled separately.  The two `acc_t == 0`
tests (lines 151 and 166) are merged into a single branch, which is
sound because the stepping loop never writes `acc_t`; in the
`acc_t != 0` branch the loop is skipped, `acc_t` is decremented and
`rolling` is forced true (lines 172-176), so the load block of lines
178-199 is unreachable there. -/
def move_rotors (s : DState) : DState :=
  if s.acc_t = 0 then
    if (stepRes s).rolling then
      { rotors := (stepRes s).rotors, steps := (stepRes s).steps,
        acc := if s.acc > 0 then s.acc - 1 else s.acc,
        acc_t := if s.acc > 0 then s.acc - 1 else s.acc_t,
        last_display := s.last_display, message := s.message, rolling := true }
    else if msgGet s.message 0 = 0 then
      { rotors := (stepRes s).rotors, steps := (stepRes s).steps, acc := INITIAL_ACCEL,
        acc_t := if s.acc > 0 then s.acc - 1 else s.acc_t,
        last_display := s.last_display, message := s.message, rolling := false }
    else
      loadMessage
        { rotors := (stepRes s).rotors, steps := (stepRes s).steps, acc := INITIAL_ACCEL,
          acc_t := if s.acc > 0 then s.acc - 1 else s.acc_t,
          last_display := s.last_display, message := s.message, rolling := false }
  else { s with acc_t := s.acc_t - 1, rolling := true }

/-- Lines 86-96, `setup()`: every rotor byte `0x11`, all counters 0, all
settled flaps at the space index, empty message buffer. -/
def setup : DState :=
  { rotors := fun _ => 0x11, steps := fun _ => 0, acc := 0, acc_t := 0,
    last_display := fun _ => NUM_FLAPS - 1, message := fun _ => 0, rolling := false }

/-- The all-pins-low signal of lines 116-119. -/
def deenergized : List Bool := [false, false, false, false]

/-- The 4-phase excitation pattern corresponding to a phase nibble:
pins 1..4 carry bits 3..0 of the nibble. -/
def excitation (n : Nat) : List Bool :=
  [decide (n &&& 8 ≠ 0), decide (n &&& 4 ≠ 0), decide (n &&& 2 ≠ 0), decide (n &&& 1 ≠ 0)]

/-- Lines 101-121, `rotors_out`, as the signal emitted for unit
`rotor_num`: the four `digitalWrite` levels `[pin_1, pin_2, pin_3, pin_4]`.
The shipped sketch instantiates `rotor_num = 0` (shift-register transport
for the other units is left TBD), but the body is already generic in
`rotor_num` and is modelled as such. -/
def rotors_out (s : DState) (rotor_num : Fin 10) : List Bool :=
  if s.steps rotor_num > -BRAKE_STEPS then
    if rotor_num.val % 2 = 0 then
      [decide (s.rotors (pairIdx rotor_num) &&& 128 ≠ 0),
        decide (s.rotors (pairIdx rotor_num) &&& 64 ≠ 0),
        decide (s.rotors (pairIdx rotor_num) &&& 32 ≠ 0),
        decide (s.rotors (pairIdx rotor_num) &&& 16 ≠ 0)]
    else
      [decide (s.rotors (pairIdx rotor_num) * 16 % 256 &&& 128 ≠ 0),
        decide (s.rotors (pairIdx rotor_num) * 16 % 256 &&& 64 ≠ 0),
        decide (s.rotors (pairIdx rotor_num) * 16 % 256 &&& 32 ≠ 0),
        decide (s.rotors (pairIdx rotor_num) * 16 % 256 &&& 16 ≠ 0)]
  else deenergized

/-- Line 105: the energize condition of the output stage for one unit. -/
def isEnergized (s : DState) (u : Fin 10) : Bool := decide (s.steps u > -BRAKE_STEPS)

/-- Iterated ticks: `n` consecutive calls of `move_rotors`. -/
def tickN : Nat → DState → DState
  | 0, s => s
  | n + 1, s => tickN n (move_rotors s)

/-- How many of the next `n` ticks enter with `acc_t = 0`, i.e. are not
pacing-delay ticks. -/
def nonDelayCount : DState → Nat → Nat
  | _, 0 => 0
  | s, n + 1 => (if s.acc_t = 0 then 1 else 0) + nonDelayCount (move_rotors s) n

/-- Both nibbles of every byte of a packed rotor array are one-hot. -/
def nibInv (r : Fin 5 → Nat) : Prop :=
  ∀ b : Fin 5, oneHot (hiNib (r b)) ∧ oneHot (loNib (r b))

/-- Both excitation nibbles of every packed rotor byte hold exactly one
set bit. -/
def rotInv (s : DState) : Prop := nibInv s.rotors

/-- Every packed rotor byte fits in 8 bits, as the `char` array does. -/
def byteInv (s : DState) : Prop := ∀ b : Fin 5, s.rotors b < 256

/-- The target flap the load loop assigns to unit `u`: the character read
at the pointer position reached for `u`, which is `u` itself while the
message lasts and the terminator position afterwards. -/
def targetOf (m : Fin 11 → Int) (u : Fin 10) : Int :=
  computeTarget (msgGet m (min u.val (msgLen m)))

/-- Invariant of the message-load loop after the first `k` units have
been processed, relative to the original message `m₀`, settled flaps
`ld₀` and step counters `steps₀`. -/
def LoadInv (m₀ : Fin 11 → Int) (ld₀ steps₀ : Fin 10 → Int) (k : Nat) (st : LoadSt) : Prop :=
  st.p = min k (msgLen m₀) ∧
  (∀ i : Fin 11, i.val < min k (msgLen m₀) → st.message i = 0) ∧
  (∀ i : Fin 11, min k (msgLen m₀) ≤ i.val → st.message i = m₀ i) ∧
  (∀ u : Fin 10, u.val < k →
    st.steps u = applyCompensation (computeStepPlan (ld₀ u) (targetOf m₀ u)) ∧
    st.last_display u = targetOf m₀ u) ∧
  (∀ u : Fin 10, k ≤ u.val → st.steps u = steps₀ u ∧ st.last_display u = ld₀ u)

instance oneHotDec (n : Nat) : Decidable (oneHot n) :=
  inferInstanceAs (Decidable (n = 1 ∨ n = 2 ∨ n = 4 ∨ n = 8))

instance nibInvDec (r : Fin 5 → Nat) : Decidable (nibInv r) :=
  inferInstanceAs (Decidable (∀ b : Fin 5, oneHot (hiNib (r b)) ∧ oneHot (loNib (r b))))

instance rotInvDec (s : DState) : Decidable (rotInv s) :=
  inferInstanceAs (Decidable (nibInv s.rotors))

instance byteInvDec (s : DState) : Decidable (byteInv s) :=
  inferInstanceAs (Decidable (∀ b : Fin 5, s.rotors b < 256))

/-- A state with one unit inside its brake window (`steps = -49`) and all
others parked, no pacing delay pending and an empty message buffer. -/
def c2state : DState :=
  { rotors := fun _ => 0x11, steps := fun u => if u.val = 0 then -49 else -50,
    acc := 0, acc_t := 0, last_display := fun _ => NUM_FLAPS - 1,
    message := fun _ => 0, rolling := false }

/-- An idle, parked state whose pending one-character message "A" names
exactly the flaps the units already show (`last_display 0 = 0 = 'A'`,
all others at the space flap). -/
def c4state : DState :=
  { rotors := fun _ => 0x11, steps := fun _ => -50, acc := 0, acc_t := 0,
    last_display := fun u => if u.val = 0 then 0 else NUM_FLAPS - 1,
    message := fun i => if i.val = 0 then 65 else 0, rolling := false }

/-- A state in the middle of a pacing delay (`acc_t = 2`). -/
def c6state : DState :=
  { rotors := fun _ => 0x11, steps := fun _ => 100, acc := 3, acc_t := 2,
    last_display := fun _ => NUM_FLAPS - 1, message := fun _ => 0, rolling := true }

/-- An idle, parked state with the pending two-character message "AB". -/
def c8state : DState :=
  { rotors := fun _ => 0x11, steps := fun _ => -50, acc := 0, acc_t := 0,
    last_display := fun _ => NUM_FLAPS - 1,
    message := fun i => if i.val = 0 then 65 else if i.val = 1 then 66 else 0,
    rolling := false }

lemma hiNib_lt (b : Nat) : hiNib b < 16 := by
  unfold hiNib; omega

lemma loNib_lt (b : Nat) : loNib b < 16 := by
  unfold loNib; omega

lemma stepNib_lt (n : Nat) (h : n < 16) : stepNib n < 16 := by
  unfold stepNib; split <;> omega

lemma hiNib_pack (h l : Nat) (hh : h < 16) (hl : l < 16) : hiNib (h * 16 + l) = h := by
  unfold hiNib; omega

lemma loNib_pack (h l : Nat) (hh : h < 16) (hl : l < 16) : loNib (h * 16 + l) = l := by
  unfold loNib; omega

lemma pairIdx_eq_iff (u v : Fin 10) : pairIdx u = pairIdx v ↔ u.val / 2 = v.val / 2 := by
  unfold pairIdx
  exact ⟨fun h => congrArg Fin.val h, fun h => Fin.ext h⟩

lemma step_fwd_nib_self (r : Fin 5 → Nat) (ff : Fin 10) :
    unitNib (step_fwd r ff) ff = stepNib (unitNib r ff) := by
  unfold step_fwd unitNib
  by_cases h : ff.val % 2 = 0 <;>
    simp only [h, if_true, if_false, Function.update_same, reduceIte]
  · exact hiNib_pack _ _ (stepNib_lt _ (hiNib_lt _)) (loNib_lt _)
  · exact loNib_pack _ _ (hiNib_lt _) (stepNib_lt _ (loNib_lt _))

lemma step_fwd_nib_other (r : Fin 5 → Nat) (ff u : Fin 10) (hne : u ≠ ff) :
    unitNib (step_fwd r ff) u = unitNib r u := by
  by_cases hp : pairIdx u = pairIdx ff
  · -- same byte, so u and ff have opposite parity
    have hv : u.val / 2 = ff.val / 2 := (pairIdx_eq_iff u ff).mp hp
    have hvne : u.val ≠ ff.val := fun h => hne (Fin.ext h)
    have hpar : u.val % 2 ≠ ff.val % 2 := by omega
    unfold step_fwd unitNib
    by_cases h : ff.val % 2 = 0
    · have hu : ¬ u.val % 2 = 0 := by omega
      simp only [h, hu, if_true, if_false, reduceIte, hp, Function.update_same]
      exact loNib_pack _ _ (stepNib_lt _ (hiNib_lt _)) (loNib_lt _)
    · have hu : u.val % 2 = 0 := by omega
      simp only [h, hu, if_true, if_false, reduceIte, hp, Function.update_same]
      exact hiNib_pack _ _ (hiNib_lt _) (stepNib_lt _ (loNib_lt _))
  · -- different bytes: the update does not touch u's byte
    unfold step_fwd unitNib
    by_cases h : ff.val % 2 = 0 <;>
      simp only [h, if_true, if_false, reduceIte, Function.update_noteq hp]

lemma step_fwd_lt (r : Fin 5 → Nat) (ff : Fin 10) (hb : ∀ i, r i < 256) :
    ∀ i, step_fwd r ff i < 256 := by
  intro i
  unfold step_fwd
  by_cases h : ff.val % 2 = 0 <;>
    simp only [h, if_true, if_false, reduceIte, Function.update_apply] <;>
    split
  · have h1 := stepNib_lt _ (hiNib_lt (r (pairIdx ff)))
    have h2 := loNib_lt (r (pairIdx ff))
    omega
  · exact hb i
  · have h1 := hiNib_lt (r (pairIdx ff))
    have h2 := stepNib_lt _ (loNib_lt (r (pairIdx ff)))
    omega
  · exact hb i

lemma loopBody_steps (st : LoopSt) (a u : Fin 10) :
    (loopBody st a).steps u =
      if u = a ∧ st.steps a > -BRAKE_STEPS then st.steps a - 1 else st.steps u := by
  unfold loopBody
  by_cases hc : st.steps a > -BRAKE_STEPS <;>
    by_cases hu : u = a <;>
    simp [hc, hu, Function.update_same, Function.update_apply]

lemma loopBody_nib (st : LoopSt) (a u : Fin 10) :
    unitNib (loopBody st a).rotors u =
      if u = a ∧ st.steps a > 0 then stepNib (unitNib st.rotors a)
      else unitNib st.rotors u := by
  unfold loopBody
  by_cases hc : st.steps a > -BRAKE_STEPS
  · by_cases hs : st.steps a > 0
    · by_cases hu : u = a
      · subst hu; simp [hc, hs, step_fwd_nib_self]
      · simp [hc, hs, hu, step_fwd_nib_other st.rotors a u hu]
    · simp [hc, hs]
  · have hs : ¬ st.steps a > 0 := by unfold BRAKE_STEPS at hc; omega
    simp [hc, hs]

lemma loopBody_rolling (st : LoopSt) (a : Fin 10) :
    (loopBody st a).rolling = (st.rolling || decide (st.steps a > -BRAKE_STEPS)) := by
  unfold loopBody
  by_cases hc : st.steps a > -BRAKE_STEPS <;> simp [hc]

lemma foldl_loopBody_steps (L : List (Fin 10)) :
    ∀ (st : LoopSt) (u : Fin 10), L.Nodup →
      ((L.foldl loopBody st).steps u =
        if u ∈ L ∧ st.steps u > -BRAKE_STEPS then st.steps u - 1 else st.steps u) := by
  induction L with
  | nil => intro st u _; simp
  | cons a L ih =>
    intro st u hnd
    obtain ⟨ha, hnd2⟩ := List.nodup_cons.mp hnd
    rw [List.foldl_cons, ih _ _ hnd2]
    by_cases hu : u = a
    · subst hu
      have hmem : u ∉ L := ha
      rw [loopBody_steps]
      by_cases hc : st.steps u > -BRAKE_STEPS <;>
        simp [hmem, hc, List.mem_cons]
    · have hst : (loopBody st a).steps u = st.steps u := by
        rw [loopBody_steps]; simp [hu]
      rw [hst]
      simp [List.mem_cons, hu]

lemma foldl_loopBody_nib (L : List (Fin 10)) :
    ∀ (st : LoopSt) (u : Fin 10), L.Nodup →
      (unitNib (L.foldl loopBody st).rotors u =
        if u ∈ L ∧ st.steps u > 0 then stepNib (unitNib st.rotors u)
        else unitNib st.rotors u) := by
  induction L with
  | nil => intro st u _; simp
  | cons a L ih =>
    intro st u hnd
    obtain ⟨ha, hnd2⟩ := List.nodup_cons.mp hnd
    rw [List.foldl_cons, ih _ _ hnd2]
    by_cases hu : u = a
    · subst hu
      have hmem : u ∉ L := ha
      have hst : (loopBody st u).steps u =
          if st.steps u > -BRAKE_STEPS then st.steps u - 1 else st.steps u := by
        rw [loopBody_steps]; simp
      rw [loopBody_nib]
      by_cases hc : st.steps u > 0 <;> simp [hmem, hc, List.mem_cons]
    · have hst : (loopBody st a).steps u = st.steps u := by
        rw [loopBody_steps]; simp [hu]
      have hnb : unitNib (loopBody st a).rotors u = unitNib st.rotors u := by
        rw [loopBody_nib]; simp [hu]
      rw [hst, hnb]
      simp [List.mem_cons, hu]

lemma foldl_loopBody_rolling (L : List (Fin 10)) :
    ∀ (st : LoopSt), L.Nodup →
      (((L.foldl loopBody st).rolling = true) ↔
        (st.rolling = true ∨ ∃ u ∈ L, st.steps u > -BRAKE_STEPS)) := by
  induction L with
  | nil => intro st _; simp
  | cons a L ih =>
    intro st hnd
    obtain ⟨ha, hnd2⟩ := List.nodup_cons.mp hnd
    rw [List.foldl_cons, ih _ hnd2]
    have hsteps : ∀ v ∈ L, (loopBody st a).steps v = st.steps v := by
      intro v hv
      rw [loopBody_steps]
      have : v ≠ a := fun h => ha (h ▸ hv)
      simp [this]
    rw [loopBody_rolling]
    constructor
    · rintro (hr | ⟨v, hv, hs⟩)
      · rcases Bool.or_eq_true_iff.mp hr with h | h
        · exact Or.inl h
        · exact Or.inr ⟨a, List.mem_cons_self a L, of_decide_eq_true h⟩
      · exact Or.inr ⟨v, List.mem_cons_of_mem a hv, (hsteps v hv) ▸ hs⟩
    · rintro (hr | ⟨v, hv, hs⟩)
      · exact Or.inl (by simp [hr])
      · rcases List.mem_cons.mp hv with h | h
        · subst h; exact Or.inl (by simp [hs])
        · exact Or.inr ⟨v, h, (hsteps v h).symm ▸ hs⟩

lemma foldl_loopBody_id (L : List (Fin 10)) :
    ∀ (st : LoopSt), (∀ u : Fin 10, ¬ st.steps u > -BRAKE_STEPS) →
      L.foldl loopBody st = st := by
  induction L with
  | nil => intro st _; rfl
  | cons a L ih =>
    intro st h
    have : loopBody st a = st := by unfold loopBody; simp [h a]
    rw [List.foldl_cons, this, ih _ h]

lemma stepLoop_steps (st : LoopSt) (u : Fin 10) :
    (stepLoop st).steps u =
      if st.steps u > -BRAKE_STEPS then st.steps u - 1 else st.steps u := by
  have h := foldl_loopBody_steps (List.finRange 10) st u (List.nodup_finRange 10)
  simpa [stepLoop, List.mem_finRange] using h

lemma stepLoop_nib (st : LoopSt) (u : Fin 10) :
    unitNib (stepLoop st).rotors u =
      if st.steps u > 0 then stepNib (unitNib st.rotors u) else unitNib st.rotors u := by
  have h := foldl_loopBody_nib (List.finRange 10) st u (List.nodup_finRange 10)
  simpa [stepLoop, List.mem_finRange] using h

lemma stepLoop_rolling (st : LoopSt) :
    ((stepLoop st).rolling = true) ↔
      (st.rolling = true ∨ ∃ u : Fin 10, st.steps u > -BRAKE_STEPS) := by
  have h := foldl_loopBody_rolling (List.finRange 10) st (List.nodup_finRange 10)
  simpa [stepLoop, List.mem_finRange] using h

lemma stepLoop_id (st : LoopSt) (h : ∀ u : Fin 10, ¬ st.steps u > -BRAKE_STEPS) :
    stepLoop st = st :=
  foldl_loopBody_id (List.finRange 10) st h

lemma loadMessage_rotors (s : DState) : (loadMessage s).rotors = s.rotors := by
  simp only [loadMessage]

lemma loadMessage_acc (s : DState) : (loadMessage s).acc = s.acc := by
  simp only [loadMessage]

lemma loadMessage_acc_t (s : DState) : (loadMessage s).acc_t = s.acc_t := by
  simp only [loadMessage]

lemma loadMessage_rolling (s : DState) : (loadMessage s).rolling = s.rolling := by
  simp only [loadMessage]

lemma loadMessage_steps (s : DState) : (loadMessage s).steps = (loadRun s).steps := by
  simp only [loadMessage]

lemma loadMessage_last (s : DState) :
    (loadMessage s).last_display = (loadRun s).last_display := by
  simp only [loadMessage]

lemma loadMessage_msg (s : DState) : (loadMessage s).message = (loadRun s).message := by
  simp only [loadMessage]

lemma stepRes_steps (s : DState) (u : Fin 10) :
    (stepRes s).steps u =
      if s.steps u > -BRAKE_STEPS then s.steps u - 1 else s.steps u :=
  stepLoop_steps _ u

lemma stepRes_nib (s : DState) (u : Fin 10) :
    unitNib (stepRes s).rotors u =
      if s.steps u > 0 then stepNib (unitNib s.rotors u) else unitNib s.rotors u :=
  stepLoop_nib _ u

lemma stepRes_rolling (s : DState) :
    ((stepRes s).rolling = true) ↔ ∃ u : Fin 10, s.steps u > -BRAKE_STEPS := by
  have h := stepLoop_rolling { rotors := s.rotors, steps := s.steps, rolling := false }
  simpa [stepRes] using h

lemma tick_delay (s : DState) (h : s.acc_t ≠ 0) :
    (move_rotors s).rotors = s.rotors ∧ (move_rotors s).steps = s.steps ∧
    (move_rotors s).acc = s.acc ∧ (move_rotors s).acc_t = s.acc_t - 1 ∧
    (move_rotors s).last_display = s.last_display ∧
    (move_rotors s).message = s.message ∧ (move_rotors s).rolling = true := by
  unfold move_rotors
  rw [if_neg h]
  exact ⟨rfl, rfl, rfl, rfl, rfl, rfl, rfl⟩

lemma tick_rolling (s : DState) :
    ((move_rotors s).rolling = true) ↔
      (s.acc_t ≠ 0 ∨ ∃ u : Fin 10, s.steps u > -BRAKE_STEPS) := by
  by_cases h : s.acc_t = 0
  · unfold move_rotors
    rw [if_pos h]
    by_cases hr : (stepRes s).rolling = true
    · rw [if_pos hr]
      exact iff_of_true rfl (Or.inr ((stepRes_rolling s).mp hr))
    · have hnex : ¬ ∃ u : Fin 10, s.steps u > -BRAKE_STEPS :=
        fun hex => hr ((stepRes_rolling s).mpr hex)
      rw [if_neg hr]
      by_cases hm : msgGet s.message 0 = 0
      · rw [if_pos hm]
        exact iff_of_false (by simp) (by simp [h, hnex])
      · rw [if_neg hm, loadMessage_rolling]
        exact iff_of_false (by simp) (by simp [h, hnex])
  · rw [(tick_delay s h).2.2.2.2.2.2]
    exact iff_of_true rfl (Or.inl h)

lemma tick_msg_of_empty (s : DState) (hm : msgGet s.message 0 = 0) :
    (move_rotors s).message = s.message := by
  by_cases h : s.acc_t = 0
  · unfold move_rotors
    rw [if_pos h]
    by_cases hr : (stepRes s).rolling = true
    · rw [if_pos hr]
    · rw [if_neg hr, if_pos hm]
  · exact (tick_delay s h).2.2.2.2.2.1

lemma tick_steps_of_empty (s : DState) (hm : msgGet s.message 0 = 0) (u : Fin 10) :
    (move_rotors s).steps u =
      if s.acc_t = 0 ∧ s.steps u > -BRAKE_STEPS then s.steps u - 1 else s.steps u := by
  by_cases h : s.acc_t = 0
  · have hs := stepRes_steps s u
    unfold move_rotors
    rw [if_pos h]
    by_cases hr : (stepRes s).rolling = true
    · rw [if_pos hr]
      simpa [h] using hs
    · rw [if_neg hr, if_pos hm]
      simpa [h] using hs
  · rw [(tick_delay s h).2.1]
    simp [h]

lemma msgLenFrom_ge (m : Fin 11 → Int) (fuel : Nat) :
    ∀ k, k ≤ msgLenFrom m k fuel := by
  induction fuel with
  | zero => intro k; simp [msgLenFrom]
  | succ fuel ih =>
    intro k
    unfold msgLenFrom
    split
    · exact le_refl k
    · exact le_trans (by omega) (ih (k + 1))

lemma msgLenFrom_le (m : Fin 11 → Int) (fuel : Nat) :
    ∀ k, msgLenFrom m k fuel ≤ k + fuel := by
  induction fuel with
  | zero => intro k; simp [msgLenFrom]
  | succ fuel ih =>
    intro k
    unfold msgLenFrom
    split
    · omega
    · have := ih (k + 1)
      omega

lemma msgLenFrom_ne (m : Fin 11 → Int) (fuel : Nat) :
    ∀ k i, k ≤ i → i < msgLenFrom m k fuel → msgGet m i ≠ 0 := by
  induction fuel with
  | zero =>
    intro k i hk hi
    simp [msgLenFrom] at hi
    omega
  | succ fuel ih =>
    intro k i hk hi
    unfold msgLenFrom at hi
    by_cases h : msgGet m k = 0
    · rw [if_pos h] at hi
      omega
    · rw [if_neg h] at hi
      by_cases hik : i = k
      · subst hik; exact h
      · exact ih (k + 1) i (by omega) hi

lemma msgLenFrom_get (m : Fin 11 → Int) (fuel : Nat) :
    ∀ k, msgLenFrom m k fuel < k + fuel → msgGet m (msgLenFrom m k fuel) = 0 := by
  induction fuel with
  | zero =>
    intro k hk
    simp [msgLenFrom] at hk
  | succ fuel ih =>
    intro k hk
    unfold msgLenFrom at hk ⊢
    by_cases h : msgGet m k = 0
    · rw [if_pos h]
      exact h
    · rw [if_neg h] at hk ⊢
      exact ih (k + 1) (by omega)

lemma msgLen_le (m : Fin 11 → Int) : msgLen m ≤ 10 := msgLenFrom_le m 10 0

lemma msgLen_pos_ne (m : Fin 11 → Int) (i : Nat) (hi : i < msgLen m) : msgGet m i ≠ 0 :=
  msgLenFrom_ne m 10 0 i (Nat.zero_le i) hi

lemma msgGet_msgLen (m : Fin 11 → Int) (h : msgLen m < 10) : msgGet m (msgLen m) = 0 :=
  msgLenFrom_get m 10 0 h

lemma msgLen_pos (m : Fin 11 → Int) (hm : msgGet m 0 ≠ 0) : 0 < msgLen m := by
  unfold msgLen msgLenFrom
  rw [if_neg hm]
  exact lt_of_lt_of_le (by omega) (msgLenFrom_ge m 9 1)

lemma loadStep (m₀ : Fin 11 → Int) (ld₀ steps₀ : Fin 10 → Int) (k : Nat) (hk : k < 10)
    (st : LoadSt) (hinv : LoadInv m₀ ld₀ steps₀ k st) :
    LoadInv m₀ ld₀ steps₀ (k + 1) (loadBody st ⟨k, hk⟩) := by
  obtain ⟨hp, hz, hm, hdone, hrest⟩ := hinv
  have h11 : k < 11 := by omega
  have hlen := msgLen_le m₀
  -- the byte read for unit k is the original byte at position min k len
  have hread : msgGet st.message st.p = msgGet m₀ (min k (msgLen m₀)) := by
    have hmin11 : min k (msgLen m₀) < 11 := by omega
    rw [hp]
    unfold msgGet
    rw [dif_pos hmin11, dif_pos hmin11]
    exact hm ⟨min k (msgLen m₀), hmin11⟩ (le_refl _)
  have htgt : computeTarget (msgGet st.message st.p) = targetOf m₀ ⟨k, hk⟩ := by
    rw [hread]; rfl
  have hld : st.last_display ⟨k, hk⟩ = ld₀ ⟨k, hk⟩ := (hrest ⟨k, hk⟩ (le_refl k)).2
  by_cases hkl : k < msgLen m₀
  · -- a real character is consumed
    have hpk : st.p = k := by rw [hp]; omega
    have hcne : msgGet st.message st.p ≠ 0 := by
      rw [hread]
      have : min k (msgLen m₀) = k := by omega
      rw [this]
      exact msgLen_pos_ne m₀ k hkl
    unfold loadBody
    rw [if_pos hcne]
    refine ⟨?_, ?_, ?_, ?_, ?_⟩
    · show st.p + 1 = min (k + 1) (msgLen m₀)
      omega
    · intro i hi
      show msgSet st.message st.p 0 i = 0
      unfold msgSet
      rw [hpk, dif_pos h11, Function.update_apply]
      split
      · rfl
      · next hne =>
        have hvne : i.val ≠ k := fun hv => hne (Fin.ext hv)
        exact hz i (by omega)
    · intro i hi
      show msgSet st.message st.p 0 i = m₀ i
      unfold msgSet
      have hik : i.val ≠ k := by omega
      rw [hpk, dif_pos h11, Function.update_noteq (fun hv => hik (congrArg Fin.val hv))]
      exact hm i (by omega)
    · intro u hu
      by_cases huk : u = ⟨k, hk⟩
      · subst huk
        constructor
        · show Function.update st.steps _ _ _ = _
          rw [Function.update_same, htgt, hld]
        · show Function.update st.last_display _ _ _ = _
          rw [Function.update_same, htgt]
      · have hulk : u.val < k := by
          have : u.val ≠ k := fun hv => huk (Fin.ext hv)
          omega
        constructor
        · show Function.update st.steps _ _ _ = _
          rw [Function.update_noteq huk]
          exact (hdone u hulk).1
        · show Function.update st.last_display _ _ _ = _
          rw [Function.update_noteq huk]
          exact (hdone u hulk).2
    · intro u hu
      have huk : u ≠ ⟨k, hk⟩ := by
        intro hv
        have hvk : u.val = k := by rw [hv]
        omega
      constructor
      · show Function.update st.steps _ _ _ = _
        rw [Function.update_noteq huk]
        exact (hrest u (by omega)).1
      · show Function.update st.last_display _ _ _ = _
        rw [Function.update_noteq huk]
        exact (hrest u (by omega)).2
  · -- the pointer sits on the terminator: nothing is consumed
    have hmin : min k (msgLen m₀) = msgLen m₀ := by omega
    have hc0 : msgGet st.message st.p = 0 := by
      rw [hread, hmin]
      exact msgGet_msgLen m₀ (by omega)
    unfold loadBody
    rw [if_neg (not_not.mpr hc0)]
    refine ⟨?_, ?_, ?_, ?_, ?_⟩
    · show st.p = min (k + 1) (msgLen m₀)
      omega
    · intro i hi
      exact hz i (by omega)
    · intro i hi
      exact hm i (by omega)
    · intro u hu
      by_cases huk : u = ⟨k, hk⟩
      · subst huk
        constructor
        · show Function.update st.steps _ _ _ = _
          rw [Function.update_same, htgt, hld]
        · show Function.update st.last_display _ _ _ = _
          rw [Function.update_same, htgt]
      · have hulk : u.val < k := by
          have : u.val ≠ k := fun hv => huk (Fin.ext hv)
          omega
        constructor
        · show Function.update st.steps _ _ _ = _
          rw [Function.update_noteq huk]
          exact (hdone u hulk).1
        · show Function.update st.last_display _ _ _ = _
          rw [Function.update_noteq huk]
          exact (hdone u hulk).2
    · intro u hu
      have huk : u ≠ ⟨k, hk⟩ := by
        intro hv
        have hvk : u.val = k := by rw [hv]
        omega
      constructor
      · show Function.update st.steps _ _ _ = _
        rw [Function.update_noteq huk]
        exact (hrest u (by omega)).1
      · show Function.update st.last_display _ _ _ = _
        rw [Function.update_noteq huk]
        exact (hrest u (by omega)).2

lemma tick_nib_of_acct0 (s : DState) (h : s.acc_t = 0) (u : Fin 10) :
    unitNib (move_rotors s).rotors u =
      if s.steps u > 0 then stepNib (unitNib s.rotors u) else unitNib s.rotors u := by
  have hs := stepRes_nib s u
  unfold move_rotors
  rw [if_pos h]
  by_cases hr : (stepRes s).rolling = true
  · rw [if_pos hr]
    exact hs
  · rw [if_neg hr]
    by_cases hm : msgGet s.message 0 = 0
    · rw [if_pos hm]
      exact hs
    · rw [if_neg hm, loadMessage_rotors]
      exact hs

lemma loadRun_inv (s : DState) :
    LoadInv s.message s.last_display s.steps 10 (loadRun s) := by
  have h0 : LoadInv s.message s.last_display s.steps 0
      { p := 0, steps := s.steps, last_display := s.last_display, message := s.message } := by
    refine ⟨by simp, ?_, ?_, ?_, ?_⟩
    · intro i hi
      omega
    · intro i _
      rfl
    · intro u hu
      omega
    · intro u _
      exact ⟨rfl, rfl⟩
  have e : List.finRange 10 = [0, 1, 2, 3, 4, 5, 6, 7, 8, 9] := by decide
  unfold loadRun
  rw [e]
  simp only [List.foldl_cons, List.foldl_nil]
  exact loadStep _ _ _ 9 (by omega) _ (loadStep _ _ _ 8 (by omega) _
    (loadStep _ _ _ 7 (by omega) _ (loadStep _ _ _ 6 (by omega) _
    (loadStep _ _ _ 5 (by omega) _ (loadStep _ _ _ 4 (by omega) _
    (loadStep _ _ _ 3 (by omega) _ (loadStep _ _ _ 2 (by omega) _
    (loadStep _ _ _ 1 (by omega) _ (loadStep _ _ _ 0 (by omega) _ h0)))))))))

lemma loadMessage_steps_eq (s : DState) (u : Fin 10) :
    (loadMessage s).steps u =
      applyCompensation (computeStepPlan (s.last_display u) (targetOf s.message u)) := by
  rw [loadMessage_steps]
  exact ((loadRun_inv s).2.2.2.1 u u.isLt).1

lemma loadMessage_last_eq (s : DState) (u : Fin 10) :
    (loadMessage s).last_display u = targetOf s.message u := by
  rw [loadMessage_last]
  exact ((loadRun_inv s).2.2.2.1 u u.isLt).2

lemma loadMessage_msg_lt (s : DState) (i : Fin 11) (hi : i.val < msgLen s.message) :
    (loadMessage s).message i = 0 := by
  rw [loadMessage_msg]
  refine (loadRun_inv s).2.1 i ?_
  have := msgLen_le s.message
  omega

lemma loadMessage_msg_ge (s : DState) (i : Fin 11) (hi : msgLen s.message ≤ i.val) :
    (loadMessage s).message i = s.message i := by
  rw [loadMessage_msg]
  refine (loadRun_inv s).2.2.1 i ?_
  have := msgLen_le s.message
  omega

lemma stepRes_id (s : DState) (hp : ∀ u : Fin 10, ¬ s.steps u > -BRAKE_STEPS) :
    stepRes s = { rotors := s.rotors, steps := s.steps, rolling := false } :=
  stepLoop_id _ hp

lemma tick_load (s : DState) (h0 : s.acc_t = 0)
    (hp : ∀ u : Fin 10, ¬ s.steps u > -BRAKE_STEPS) (hm : msgGet s.message 0 ≠ 0) :
    move_rotors s = loadMessage
      { rotors := s.rotors, steps := s.steps, acc := INITIAL_ACCEL,
        acc_t := if s.acc > 0 then s.acc - 1 else s.acc_t,
        last_display := s.last_display, message := s.message, rolling := false } := by
  unfold move_rotors
  rw [if_pos h0, stepRes_id s hp]
  rw [if_neg (by simp), if_neg hm]

lemma tick_idle (s : DState) (h0 : s.acc_t = 0)
    (hp : ∀ u : Fin 10, ¬ s.steps u > -BRAKE_STEPS) (hm : msgGet s.message 0 = 0) :
    move_rotors s =
      { rotors := s.rotors, steps := s.steps, acc := INITIAL_ACCEL,
        acc_t := if s.acc > 0 then s.acc - 1 else s.acc_t,
        last_display := s.last_display, message := s.message, rolling := false } := by
  unfold move_rotors
  rw [if_pos h0, stepRes_id s hp]
  rw [if_neg (by simp), if_pos hm]

lemma quiesce_step (s : DState) (hm : msgGet s.message 0 = 0)
    (hs : ∀ v : Fin 10, s.steps v ≤ 0) :
    (∀ u : Fin 10, unitNib (move_rotors s).rotors u = unitNib s.rotors u) ∧
    (∀ v : Fin 10, (move_rotors s).steps v ≤ 0) ∧
    (move_rotors s).message = s.message := by
  refine ⟨?_, ?_, tick_msg_of_empty s hm⟩
  · intro u
    by_cases h : s.acc_t = 0
    · rw [tick_nib_of_acct0 s h u]
      have hns : ¬ s.steps u > 0 := by have := hs u; omega
      rw [if_neg hns]
    · rw [(tick_delay s h).1]
  · intro v
    rw [tick_steps_of_empty s hm v]
    have := hs v
    split <;> omega

lemma quiesce (n : Nat) : ∀ s : DState, msgGet s.message 0 = 0 →
    (∀ v : Fin 10, s.steps v ≤ 0) →
    ∀ u : Fin 10, unitNib (tickN n s).rotors u = unitNib s.rotors u := by
  induction n with
  | zero => intro s _ _ u; rfl
  | succ n ih =>
    intro s hm hs u
    have hq := quiesce_step s hm hs
    show unitNib (tickN n (move_rotors s)).rotors u = _
    rw [ih (move_rotors s) (by rw [hq.2.2]; exact hm) hq.2.1 u, hq.1 u]

lemma brake_trace (n : Nat) : ∀ (s : DState) (u : Fin 10) (j : Nat),
    msgGet s.message 0 = 0 → s.steps u = -(j : Int) → j ≤ 50 →
    (tickN n s).steps u = -((min (j + nonDelayCount s n) 50 : Nat) : Int) := by
  induction n with
  | zero =>
    intro s u j hm hj hj50
    show s.steps u = _
    have h0 : nonDelayCount s 0 = 0 := rfl
    rw [hj, h0]
    omega
  | succ n ih =>
    intro s u j hm hj hj50
    have hmsg : msgGet (move_rotors s).message 0 = 0 := by
      rw [tick_msg_of_empty s hm]; exact hm
    show (tickN n (move_rotors s)).steps u = _
    by_cases h : s.acc_t = 0
    · have hstep : (move_rotors s).steps u = -((min (j + 1) 50 : Nat) : Int) := by
        rw [tick_steps_of_empty s hm u, hj]
        by_cases hb : -(j : Int) > -BRAKE_STEPS
        · rw [if_pos ⟨h, hb⟩]
          unfold BRAKE_STEPS at hb
          omega
        · rw [if_neg (fun hc => hb hc.2)]
          unfold BRAKE_STEPS at hb
          omega
      rw [ih (move_rotors s) u (min (j + 1) 50) hmsg hstep (by omega)]
      have hndc : nonDelayCount s (n + 1) = 1 + nonDelayCount (move_rotors s) n := by
        show (if s.acc_t = 0 then 1 else 0) + _ = _
        rw [if_pos h]
      rw [hndc]
      omega
    · have hstep : (move_rotors s).steps u = -(j : Int) := by
        rw [tick_steps_of_empty s hm u, if_neg (fun hc => h hc.1), hj]
      rw [ih (move_rotors s) u j hmsg hstep hj50]
      have hndc : nonDelayCount s (n + 1) = nonDelayCount (move_rotors s) n := by
        show (if s.acc_t = 0 then 1 else 0) + _ = _
        rw [if_neg h]
        omega
      rw [hndc]

lemma oneHot_stepNib (n : Nat) (h : oneHot n) : oneHot (stepNib n) := by
  rcases h with h | h | h | h <;> subst h <;> (unfold oneHot; decide)

lemma stepNib_cycle (n : Nat) (h : oneHot n) :
    stepNib (stepNib (stepNib (stepNib n))) = n ∧
    [n, stepNib n, stepNib (stepNib n), stepNib (stepNib (stepNib n))].Nodup := by
  rcases h with h | h | h | h <;> subst h <;> exact ⟨by decide, by decide⟩

lemma step_fwd_nibInv (r : Fin 5 → Nat) (ff : Fin 10) (h : nibInv r) :
    nibInv (step_fwd r ff) := by
  intro b
  unfold step_fwd
  by_cases hp : ff.val % 2 = 0 <;>
    simp only [hp, reduceIte, Function.update_apply] <;>
    split
  · constructor
    · rw [hiNib_pack _ _ (stepNib_lt _ (hiNib_lt _)) (loNib_lt _)]
      exact oneHot_stepNib _ (h _).1
    · rw [loNib_pack _ _ (stepNib_lt _ (hiNib_lt _)) (loNib_lt _)]
      exact (h _).2
  · exact h b
  · constructor
    · rw [hiNib_pack _ _ (hiNib_lt _) (stepNib_lt _ (loNib_lt _))]
      exact (h _).1
    · rw [loNib_pack _ _ (hiNib_lt _) (stepNib_lt _ (loNib_lt _))]
      exact oneHot_stepNib _ (h _).2
  · exact h b

lemma loopBody_nibInv (st : LoopSt) (a : Fin 10) (h : nibInv st.rotors) :
    nibInv (loopBody st a).rotors := by
  unfold loopBody
  split
  · show nibInv (if st.steps a > 0 then step_fwd st.rotors a else st.rotors)
    split
    · exact step_fwd_nibInv st.rotors a h
    · exact h
  · exact h

lemma foldl_loopBody_nibInv (L : List (Fin 10)) :
    ∀ st : LoopSt, nibInv st.rotors → nibInv (L.foldl loopBody st).rotors := by
  induction L with
  | nil => intro st h; exact h
  | cons a L ih =>
    intro st h
    rw [List.foldl_cons]
    exact ih _ (loopBody_nibInv st a h)

lemma tick_rotors (s : DState) :
    (move_rotors s).rotors = if s.acc_t = 0 then (stepRes s).rotors else s.rotors := by
  by_cases h : s.acc_t = 0
  · rw [if_pos h]
    unfold move_rotors
    rw [if_pos h]
    by_cases hr : (stepRes s).rolling = true
    · rw [if_pos hr]
    · rw [if_neg hr]
      by_cases hm : msgGet s.message 0 = 0
      · rw [if_pos hm]
      · rw [if_neg hm, loadMessage_rotors]
  · rw [if_neg h]
    exact (tick_delay s h).1

lemma tick_rotInv (s : DState) (h : rotInv s) : rotInv (move_rotors s) := by
  unfold rotInv at h ⊢
  rw [tick_rotors]
  split
  · exact foldl_loopBody_nibInv (List.finRange 10)
      { rotors := s.rotors, steps := s.steps, rolling := false } h
  · exact h

set_option maxHeartbeats 1600000 in
lemma mask_hi (b : Nat) (hb : b < 256) :
    [decide (b &&& 128 ≠ 0), decide (b &&& 64 ≠ 0), decide (b &&& 32 ≠ 0),
      decide (b &&& 16 ≠ 0)] = excitation (hiNib b) := by
  revert hb
  revert b
  decide

set_option maxHeartbeats 1600000 in
lemma mask_lo (b : Nat) (hb : b < 256) :
    [decide (b * 16 % 256 &&& 128 ≠ 0), decide (b * 16 % 256 &&& 64 ≠ 0),
      decide (b * 16 % 256 &&& 32 ≠ 0), decide (b * 16 % 256 &&& 16 ≠ 0)] =
      excitation (loNib b) := by
  revert hb
  revert b
  decide

lemma excitation_ne_off (n : Nat) (hn : n < 16) (h : oneHot n) :
    excitation n ≠ deenergized := by
  rcases h with h | h | h | h <;> subst h <;> decide

/-- C1: for all flap indices c, t in [0, 32), the step plan of lines
191-192 is non-negative both before and after compensation; before
compensation it equals ((t - c + NUM_FLAPS) % NUM_FLAPS) * GEAR_RATIO
exactly (the compensation-ratio-1 value); and the applied default
compensation is the ratio 319/320 with integer truncation. -/
theorem c1_step_plan_correct (c t : Int) (hc0 : 0 ≤ c) (hc1 : c < NUM_FLAPS)
    (ht0 : 0 ≤ t) (ht1 : t < NUM_FLAPS) :
    0 ≤ computeStepPlan c t ∧
    0 ≤ applyCompensation (computeStepPlan c t) ∧
    computeStepPlan c t = (t - c + NUM_FLAPS) % NUM_FLAPS * GEAR_RATIO ∧
    applyCompensation (computeStepPlan c t) =
      (t - c + NUM_FLAPS) % NUM_FLAPS * GEAR_RATIO * 319 / 320 := by
  have hnf : NUM_FLAPS = 32 := rfl
  have hd1 : (0:Int) ≤ t - c + NUM_FLAPS := by omega
  have heq : computeStepPlan c t = (t - c + NUM_FLAPS) % NUM_FLAPS * GEAR_RATIO := by
    unfold computeStepPlan
    rw [Int.tmod_eq_emod hd1 (by omega)]
  have hnn : 0 ≤ (t - c + NUM_FLAPS) % NUM_FLAPS * GEAR_RATIO := by
    apply mul_nonneg
    · exact Int.emod_nonneg _ (by omega)
    · have : GEAR_RATIO = 64 := rfl
      omega
  have heq2 : applyCompensation (computeStepPlan c t) =
      (t - c + NUM_FLAPS) % NUM_FLAPS * GEAR_RATIO * 319 / 320 := by
    unfold applyCompensation
    rw [heq, Int.tdiv_eq_ediv (by omega) (by omega)]
  refine ⟨by rw [heq]; exact hnn, ?_, heq, heq2⟩
  rw [heq2]
  exact Int.ediv_nonneg (by omega) (by omega)

/-- C1 witness: the plan from the space flap (31) to 'H' (7), the first
unit of the spec's HELLO scenario. -/
theorem c1_step_plan_witness :
    (0:Int) ≤ 31 ∧ (31:Int) < NUM_FLAPS ∧ (0:Int) ≤ 7 ∧ (7:Int) < NUM_FLAPS ∧
    0 ≤ computeStepPlan 31 7 ∧ 0 ≤ applyCompensation (computeStepPlan 31 7) ∧
    computeStepPlan 31 7 = (7 - 31 + NUM_FLAPS) % NUM_FLAPS * GEAR_RATIO ∧
    applyCompensation (computeStepPlan 31 7) =
      (7 - 31 + NUM_FLAPS) % NUM_FLAPS * GEAR_RATIO * 319 / 320 := by
  have h := c1_step_plan_correct 31 7 (by decide) (by decide) (by decide) (by decide)
  exact ⟨by decide, by decide, by decide, by decide, h.1, h.2.1, h.2.2.1, h.2.2.2⟩

/-- C2 counterexample: in `c2state` the unit in the brake window is
decremented to `-BRAKE_STEPS` during the tick but still sets the rolling
flag, so at the end of that tick the row reports rolling although no
unit has `remainingSteps > -BRAKE_STEPS` any more: the claimed
equivalence fails at the end-of-tick state. -/
theorem c2_rolling_iff_counterexample :
    ¬ (((move_rotors c2state).rolling = true) ↔
        ∃ u : Fin 10, (move_rotors c2state).steps u > -BRAKE_STEPS) := by decide

/-- C2 (amended): at the end of any tick the rolling flag is true iff,
at entry to that tick, the shared pacing delay was nonzero or at least
one unit had `remainingSteps > -BRAKE_STEPS`.  (The original claim reads
the condition on the end-of-tick counters; the countdown performed
during the tick, and a message load resetting the counters, both break
that reading.) -/
theorem c2_rolling_iff_amended (s : DState) :
    ((move_rotors s).rolling = true) ↔
      (s.acc_t ≠ 0 ∨ ∃ u : Fin 10, s.steps u > -BRAKE_STEPS) :=
  tick_rolling s

/-- C3 counterexample: the byte 'a' (97) is mapped to `97 - 65 = 32 =
NUM_FLAPS`, which is not the space index and lies outside
[0, NUM_FLAPS): the claimed total fallback to the space flap fails. -/
theorem c3_char_map_counterexample :
    computeTarget 97 = NUM_FLAPS ∧ computeTarget 97 ≠ NUM_FLAPS - 1 ∧
    ¬ (computeTarget 97 < NUM_FLAPS) := by decide

/-- C3 (amended): the mapping is deterministic and total as a function;
'A'..'Z' map to 0..25 and the terminator and the space byte map to the
space flap NUM_FLAPS - 1, as claimed; but every other byte is mapped to
the signed-char truncation of (byte - 'A'), which is not clamped to
[0, NUM_FLAPS) (it covers the extra flaps 26..30 for '['..'_' and can
fall outside the range for any other byte). -/
theorem c3_char_map_amended (c : Int) :
    (65 ≤ c ∧ c ≤ 90 → computeTarget c = c - 65 ∧ 0 ≤ computeTarget c ∧
      computeTarget c ≤ 25) ∧
    (c = 0 → computeTarget c = NUM_FLAPS - 1) ∧
    (c = 32 → computeTarget c = NUM_FLAPS - 1) ∧
    (-128 ≤ c → c ≤ 127 → ¬ (c = 0 ∨ c = 32) → computeTarget c = toSChar (c - 65)) := by
  unfold computeTarget
  refine ⟨fun h => ?_, fun h => ?_, fun h => ?_, fun h1 h2 h3 => ?_⟩
  · rw [if_neg (by omega)]
    unfold toSChar
    omega
  · rw [if_pos (Or.inl h)]
  · rw [if_pos (Or.inr h)]
  · rw [if_neg h3]

/-- C3 witness: 'B' (66) maps to flap 1 and the terminator maps to the
space flap. -/
theorem c3_char_map_witness :
    ((65:Int) ≤ 66 ∧ (66:Int) ≤ 90) ∧ computeTarget 66 = 66 - 65 ∧
    0 ≤ computeTarget 66 ∧ computeTarget 66 ≤ 25 ∧
    computeTarget 0 = NUM_FLAPS - 1 := by
  have h1 := (c3_char_map_amended 66).1 ⟨by decide, by decide⟩
  have h2 := (c3_char_map_amended 0).2.1 rfl
  exact ⟨⟨by decide, by decide⟩, h1.1, h1.2.1, h1.2.2, h2⟩

/-- C4 counterexample: in `c4state` every unit's target equals its
settled flap; the load tick sets all `remainingSteps` to 0 (first half
of the claim holds), yet the very next tick reports the row as rolling,
because counters at 0 are still inside the brake window: the "never
observed rolling" half of the claim fails. -/
theorem c4_idempotent_counterexample :
    (∀ u : Fin 10, (move_rotors c4state).steps u = 0) ∧
    (move_rotors (move_rotors c4state)).rolling = true := by decide

/-- C4 (amended): loading a cycle in which every unit's target flap
equals its settled flap sets every unit's `remainingSteps` to 0 and no
unit's phase state ever advances for the remainder of the run; however
the row is still reported rolling on the tick following the load, while
the zero counters drain through the brake window (the original "never
observed rolling" does not hold). -/
theorem c4_idempotent_amended (s : DState) (h0 : s.acc_t = 0)
    (hp : ∀ u : Fin 10, ¬ s.steps u > -BRAKE_STEPS)
    (hm : msgGet s.message 0 ≠ 0)
    (ht : ∀ u : Fin 10, targetOf s.message u = s.last_display u) :
    (∀ u : Fin 10, (move_rotors s).steps u = 0) ∧
    (move_rotors (move_rotors s)).rolling = true ∧
    (∀ (n : Nat) (u : Fin 10),
      unitNib ((tickN n (move_rotors s)).rotors) u = unitNib s.rotors u) := by
  have hld := tick_load s h0 hp hm
  have hsteps : ∀ u : Fin 10, (move_rotors s).steps u = 0 := by
    intro u
    rw [hld, loadMessage_steps_eq]
    show applyCompensation (computeStepPlan (s.last_display u) (targetOf s.message u)) = 0
    rw [ht u]
    unfold computeStepPlan applyCompensation
    have hz : s.last_display u - s.last_display u + NUM_FLAPS = NUM_FLAPS := by omega
    rw [hz]
    decide
  refine ⟨hsteps, ?_, ?_⟩
  · rw [tick_rolling]
    right
    refine ⟨0, ?_⟩
    rw [hsteps 0]
    decide
  · intro n u
    have hm0 : msgGet (move_rotors s).message 0 = 0 := by
      rw [hld]
      have hpos : 0 < msgLen s.message := msgLen_pos _ hm
      unfold msgGet
      rw [dif_pos (by omega : (0:Nat) < 11)]
      exact loadMessage_msg_lt _ ⟨0, by omega⟩ hpos
    have hneg : ∀ v : Fin 10, (move_rotors s).steps v ≤ 0 := fun v => le_of_eq (hsteps v)
    have hnib1 : ∀ v : Fin 10, unitNib (move_rotors s).rotors v = unitNib s.rotors v := by
      intro v
      rw [hld, loadMessage_rotors]
    rw [quiesce n (move_rotors s) hm0 hneg u, hnib1 u]

/-- C4 witness: the amended theorem applied to `c4state`. -/
theorem c4_idempotent_witness :
    c4state.acc_t = 0 ∧ msgGet c4state.message 0 ≠ 0 ∧
    (move_rotors c4state).steps 1 = 0 ∧
    unitNib ((tickN 2 (move_rotors c4state)).rotors) 1 = unitNib c4state.rotors 1 := by
  have h := c4_idempotent_amended c4state (by decide) (by decide) (by decide) (by decide)
  exact ⟨by decide, by decide, h.1 1, h.2.2 2 1⟩

/-- C5: in a run with no pending message, once a unit's `remainingSteps`
reaches 0 the output stage keeps reporting it energized at each
observation until exactly BRAKE_STEPS further non-delay ticks have
executed, and reports it de-energized from then on; pacing-delay ticks
(`acc_t` nonzero at entry) do not advance the countdown. -/
theorem c5_brake_hold (s : DState) (u : Fin 10) (n : Nat)
    (hm : msgGet s.message 0 = 0) (h0 : s.steps u = 0) :
    isEnergized (tickN n s) u = decide ((nonDelayCount s n : Int) < BRAKE_STEPS) := by
  unfold isEnergized
  rw [brake_trace n s u 0 hm (by rw [h0]; norm_num) (by omega)]
  rw [decide_eq_decide]
  have hb : BRAKE_STEPS = 50 := rfl
  omega

/-- C5 witness: the freshly initialised driver (all counters 0, empty
message) after 3 ticks. -/
theorem c5_brake_hold_witness :
    msgGet setup.message 0 = 0 ∧ setup.steps 0 = 0 ∧
    isEnergized (tickN 3 setup) 0 = decide ((nonDelayCount setup 3 : Int) < BRAKE_STEPS) :=
  ⟨by decide, by decide, c5_brake_hold setup 0 3 (by decide) (by decide)⟩

/-- C6: a tick entered with a nonzero sub-tick delay decrements the
delay counter by one, advances no unit's phase state, decrements no
unit's step counter, and ends with the rolling flag true. -/
theorem c6_delay_tick (s : DState) (h : s.acc_t ≠ 0) :
    (move_rotors s).acc_t = s.acc_t - 1 ∧
    (∀ u : Fin 10, unitNib (move_rotors s).rotors u = unitNib s.rotors u) ∧
    (∀ u : Fin 10, (move_rotors s).steps u = s.steps u) ∧
    (move_rotors s).rolling = true := by
  have hd := tick_delay s h
  exact ⟨hd.2.2.2.1, fun u => by rw [hd.1], fun u => by rw [hd.2.1], hd.2.2.2.2.2.2⟩

/-- C6 witness: a state with `acc_t = 2`. -/
theorem c6_delay_tick_witness :
    c6state.acc_t ≠ 0 ∧ (move_rotors c6state).acc_t = c6state.acc_t - 1 ∧
    (move_rotors c6state).steps 0 = c6state.steps 0 ∧
    (move_rotors c6state).rolling = true := by
  have h := c6_delay_tick c6state (by decide)
  exact ⟨by decide, h.1, h.2.2.1 0, h.2.2.2⟩

/-- C7: for every unit of a well-formed state (packed bytes in 8 bits,
one-hot nibbles), the output stage emits the 4-phase excitation pattern
of that unit's phase nibble exactly when `remainingSteps > -BRAKE_STEPS`
(and that pattern is never the all-off signal), and emits the
de-energized all-off signal when `remainingSteps ≤ -BRAKE_STEPS`. -/
theorem c7_output_encoder (s : DState) (u : Fin 10) (hb : byteInv s) (hoh : rotInv s) :
    (s.steps u > -BRAKE_STEPS →
      rotors_out s u = excitation (unitNib s.rotors u) ∧ rotors_out s u ≠ deenergized) ∧
    (s.steps u ≤ -BRAKE_STEPS → rotors_out s u = deenergized) := by
  constructor
  · intro hen
    have hbb := hb (pairIdx u)
    have hexc : rotors_out s u = excitation (unitNib s.rotors u) := by
      unfold rotors_out unitNib
      rw [if_pos hen]
      by_cases hp2 : u.val % 2 = 0
      · rw [if_pos hp2, if_pos hp2]
        exact mask_hi _ hbb
      · rw [if_neg hp2, if_neg hp2]
        exact mask_lo _ hbb
    refine ⟨hexc, ?_⟩
    rw [hexc]
    have hoh2 := hoh (pairIdx u)
    unfold unitNib
    split
    · exact excitation_ne_off _ (hiNib_lt _) hoh2.1
    · exact excitation_ne_off _ (loNib_lt _) hoh2.2
  · intro hne
    unfold rotors_out
    rw [if_neg (by omega)]

/-- C7 witness: unit 0 of the freshly initialised driver, which is
inside the brake window (`steps = 0`) and energized on phase nibble 1. -/
theorem c7_output_encoder_witness :
    byteInv setup ∧ rotInv setup ∧ setup.steps 0 > -BRAKE_STEPS ∧
    rotors_out setup 0 = excitation (unitNib setup.rotors 0) ∧
    rotors_out setup 0 ≠ deenergized := by
  have h := (c7_output_encoder setup 0 (by decide) (by decide)).1 (by decide)
  exact ⟨by decide, by decide, by decide, h.1, h.2⟩

/-- C8: when a pending message is loaded at a cycle boundary, exactly
the first `msgLen` bytes — i.e. min(message length, unit count), since
`msgLen` is capped at NUM_UNITS — are consumed (zeroed) from the front
of the buffer; every byte at or beyond that position, in particular any
byte beyond the unit count, is left untouched; each unit below the
message length receives the target decoded from its own byte,
front-to-back; and every unit at or beyond the message length is
assigned the space fallback target NUM_FLAPS - 1. -/
theorem c8_message_consumption (s : DState) (h0 : s.acc_t = 0)
    (hp : ∀ u : Fin 10, ¬ s.steps u > -BRAKE_STEPS) (hm : msgGet s.message 0 ≠ 0) :
    (∀ i : Fin 11, i.val < msgLen s.message → (move_rotors s).message i = 0) ∧
    (∀ i : Fin 11, msgLen s.message ≤ i.val → (move_rotors s).message i = s.message i) ∧
    (∀ u : Fin 10, u.val < msgLen s.message →
      (move_rotors s).last_display u = computeTarget (msgGet s.message u.val)) ∧
    (∀ u : Fin 10, msgLen s.message ≤ u.val →
      (move_rotors s).last_display u = NUM_FLAPS - 1) := by
  have hld := tick_load s h0 hp hm
  refine ⟨?_, ?_, ?_, ?_⟩
  · intro i hi
    rw [hld]
    exact loadMessage_msg_lt _ i hi
  · intro i hi
    rw [hld]
    exact loadMessage_msg_ge _ i hi
  · intro u hu
    rw [hld, loadMessage_last_eq]
    show targetOf s.message u = _
    unfold targetOf
    have hmin : min u.val (msgLen s.message) = u.val := by omega
    rw [hmin]
  · intro u hu
    rw [hld, loadMessage_last_eq]
    show targetOf s.message u = _
    unfold targetOf
    have hmin : min u.val (msgLen s.message) = msgLen s.message := by omega
    have hu9 : msgLen s.message < 10 := by
      have := u.isLt
      omega
    rw [hmin, msgGet_msgLen s.message hu9]
    decide

/-- C8 witness: loading the two-character message "AB" into a parked
row: bytes 0 and 1 are consumed, byte 10 is untouched, unit 0 gets 'A'
and unit 5 gets the space fallback. -/
theorem c8_message_consumption_witness :
    c8state.acc_t = 0 ∧ msgGet c8state.message 0 ≠ 0 ∧ msgLen c8state.message = 2 ∧
    (move_rotors c8state).message ⟨0, by omega⟩ = 0 ∧
    (move_rotors c8state).message ⟨10, by omega⟩ = c8state.message ⟨10, by omega⟩ ∧
    (move_rotors c8state).last_display 0 = computeTarget (msgGet c8state.message 0) ∧
    (move_rotors c8state).last_display 5 = NUM_FLAPS - 1 := by
  have h := c8_message_consumption c8state (by decide) (by decide) (by decide)
  exact ⟨by decide, by decide, by decide,
    h.1 ⟨0, by omega⟩ (by decide), h.2.1 ⟨10, by omega⟩ (by decide),
    h.2.2.1 0 (by decide), h.2.2.2 5 (by decide)⟩

/-- C9: on a non-delay tick a unit's phase nibble advances by exactly
one `stepNib` application when `remainingSteps > 0` and is unchanged
otherwise; on a delay tick it never changes; and on the one-hot phase
values the single-step advance cycles through exactly 4 distinct
values, returning to the start after 4 applications. -/
theorem c9_phase_advance (s : DState) (u : Fin 10) :
    (s.acc_t = 0 → unitNib (move_rotors s).rotors u =
      (if s.steps u > 0 then stepNib (unitNib s.rotors u) else unitNib s.rotors u)) ∧
    (s.acc_t ≠ 0 → unitNib (move_rotors s).rotors u = unitNib s.rotors u) ∧
    (oneHot (unitNib s.rotors u) →
      stepNib (stepNib (stepNib (stepNib (unitNib s.rotors u)))) = unitNib s.rotors u ∧
      [unitNib s.rotors u, stepNib (unitNib s.rotors u),
        stepNib (stepNib (unitNib s.rotors u)),
        stepNib (stepNib (stepNib (unitNib s.rotors u)))].Nodup) :=
  ⟨fun h => tick_nib_of_acct0 s h u, fun h => by rw [(tick_delay s h).1],
    fun h => stepNib_cycle _ h⟩

/-- C9 witness: unit 0 of the freshly initialised driver (phase nibble
1, `steps = 0`, so the first tick does not advance the phase). -/
theorem c9_phase_advance_witness :
    setup.acc_t = 0 ∧ oneHot (unitNib setup.rotors 0) ∧
    unitNib (move_rotors setup).rotors 0 =
      (if setup.steps 0 > 0 then stepNib (unitNib setup.rotors 0)
        else unitNib setup.rotors 0) ∧
    stepNib (stepNib (stepNib (stepNib (unitNib setup.rotors 0)))) =
      unitNib setup.rotors 0 := by
  have h := c9_phase_advance setup 0
  exact ⟨by decide, by decide, h.1 (by decide), (h.2.2 (by decide)).1⟩

/-- C10: after initialisation every packed rotor byte is 0x11, so both
of its nibbles are one-hot, and one tick of the driver preserves
one-hotness of both nibbles of every byte (the phase advance maps each
one-hot nibble to the next one-hot value and never touches the
neighbouring nibble). -/
theorem c10_one_hot_invariant :
    rotInv setup ∧ ∀ s : DState, rotInv s → rotInv (move_rotors s) :=
  ⟨by decide, fun s h => tick_rotInv s h⟩

/-- C10 witness: the invariant holds initially and after one tick. -/
theorem c10_one_hot_witness : rotInv setup ∧ rotInv (move_rotors setup) := by
  have h := c10_one_hot_invariant
  exact ⟨h.1, h.2 setup h.1⟩
